import Mathlib

/-!
Verification of the GolamV2 web crawler against its specification.

The Go sources are shallowly embedded: pure functions become Lean
functions, stateful code is explicit state passing, external effects
(HTTP responses, the robots fetch, randomness) are oracle parameters.
Machine int64 counters only ever grow by list lengths here, so they are
modelled as Nat; priorities (depth*1000 + unix seconds) are modelled as
Int, matching int64 arithmetic on the small values involved.
-/

namespace GolamV2

/-- URLTask from internal/domain/crawler.go: a unit of crawl work.
Timestamp is the unix-second value (time.Time modelled by its Unix()
reading, which is all the queue priority uses). -/
structure URLTask where
  url : String
  depth : Nat
  timestamp : Int
  retries : Nat
deriving Repr, DecidableEq, Inhabited

/-- CrawlResult from internal/domain/crawler.go.  The Go map[string]int
of keyword counts is modelled as an association list (one entry per
distinct keyword, as in the Go map); processedAt is unix seconds. -/
structure CrawlResult where
  url : String
  statusCode : Nat
  title : String
  emails : List String
  keywords : List (String × Nat)
  deadLinks : List String
  deadDomains : List String
  newURLs : List String
  processedAt : Int
  error : String
deriving Repr, DecidableEq, Inhabited

/-- The cumulative finding counters of domain.CrawlMetrics that
storage updates in StoreResult (pkg/metrics/collector.go, BadgerStorage,
and pkg/storage/file_storage.go, FastFileStorage). -/
structure StoreCounters where
  urlsProcessed : Nat
  emailsFound : Nat
  keywordsFound : Nat
  deadLinksFound : Nat
  deadDomainsFound : Nat
  errors : Nat
deriving Repr, DecidableEq

/-- The all-zero initial counters (fresh CrawlMetrics). -/
def StoreCounters.init : StoreCounters :=
  { urlsProcessed := 0, emailsFound := 0, keywordsFound := 0,
    deadLinksFound := 0, deadDomainsFound := 0, errors := 0 }

/-- Counter effect of BadgerStorage.StoreResult (collector.go lines
441-459): each guarded atomic.AddInt64 bumps its counter by the length
of the corresponding finding list; keywords bump by len(result.Keywords),
the number of map entries.  The Go code performs the updates as a
sequence of independent guarded adds on distinct fields, written here
as one record. -/
def badgerStoreResultCounters (m : StoreCounters) (r : CrawlResult) : StoreCounters :=
  { urlsProcessed := m.urlsProcessed + 1
    emailsFound :=
      if r.emails.length > 0 then m.emailsFound + r.emails.length else m.emailsFound
    keywordsFound :=
      if r.keywords.length > 0 then m.keywordsFound + r.keywords.length else m.keywordsFound
    deadLinksFound :=
      if r.deadLinks.length > 0 then m.deadLinksFound + r.deadLinks.length else m.deadLinksFound
    deadDomainsFound :=
      if r.deadDomains.length > 0 then m.deadDomainsFound + r.deadDomains.length else m.deadDomainsFound
    errors :=
      if r.error ≠ "" then m.errors + 1 else m.errors }

/-- Counter effect of FastFileStorage.StoreResult (file_storage.go lines
69-76): only URLsProcessed, EmailsFound and KeywordsFound are updated;
the dead-link and dead-domain counters are never touched. -/
def fileStoreResultCounters (m : StoreCounters) (r : CrawlResult) : StoreCounters :=
  { urlsProcessed := m.urlsProcessed + 1
    emailsFound :=
      if r.emails.length > 0 then m.emailsFound + r.emails.length else m.emailsFound
    keywordsFound :=
      if r.keywords.length > 0 then m.keywordsFound + r.keywords.length else m.keywordsFound
    deadLinksFound := m.deadLinksFound
    deadDomainsFound := m.deadDomainsFound
    errors := m.errors }

/-- Folding StoreResult over a sequence of persisted results (Badger). -/
def badgerStoreAll (m : StoreCounters) (rs : List CrawlResult) : StoreCounters :=
  rs.foldl badgerStoreResultCounters m

/-- Folding StoreResult over a sequence of persisted results (file store). -/
def fileStoreAll (m : StoreCounters) (rs : List CrawlResult) : StoreCounters :=
  rs.foldl fileStoreResultCounters m

/-- Sum of the per-keyword counts recorded in a result, the quantity the
spec claims keywords_found accumulates. -/
def keywordCountSum (r : CrawlResult) : Nat :=
  (r.keywords.map (fun p => p.2)).sum

/-! Priority frontier, pkg/queue/priority_queue.go.  The Go code keeps a
container/heap min-heap of urlItem values inside PriorityURLQueue; the
heap slice is modelled as a List, and the container/heap up and down
loops are translated as recursive functions over list indices. -/

/-- urlItem from priority_queue.go: a task with its computed priority
(lower value is better). -/
structure HeapItem where
  task : URLTask
  priority : Int
deriving Repr, DecidableEq, Inhabited

/-- Priority key at index i of the heap slice (out-of-range reads return
the default item; all uses are guarded by bounds). -/
def hkey (l : List HeapItem) (i : Nat) : Int :=
  (l.getD i default).priority

/-- Swap of two heap slots, as heap.Interface Swap does. -/
def hswap (l : List HeapItem) (i j : Nat) : List HeapItem :=
  (l.set i (l.getD j default)).set j (l.getD i default)

/-- The up loop of container/heap: while j has a parent whose key is
larger, swap with the parent and continue from the parent. -/
def siftUp (l : List HeapItem) (j : Nat) : List HeapItem :=
  if j = 0 then l
  else if hkey l j < hkey l ((j - 1) / 2) then
    siftUp (hswap l ((j - 1) / 2) j) ((j - 1) / 2)
  else l
termination_by j
decreasing_by
  simp_wf
  omega

/-- Child index chosen by the down loop of container/heap: the second
child when it exists and has the strictly smaller key, else the first. -/
def pickChild (l : List HeapItem) (i : Nat) : Nat :=
  if 2 * i + 2 < l.length ∧ hkey l (2 * i + 2) < hkey l (2 * i + 1) then 2 * i + 2
  else 2 * i + 1

lemma hswap_length (l : List HeapItem) (i j : Nat) :
    (hswap l i j).length = l.length := by
  simp [hswap]

lemma pickChild_gt (l : List HeapItem) (i : Nat) : i < pickChild l i := by
  unfold pickChild
  split <;> omega

lemma pickChild_lt_length (l : List HeapItem) (i : Nat)
    (h : 2 * i + 1 < l.length) : pickChild l i < l.length := by
  unfold pickChild
  split
  · omega
  · exact h

/-- The down loop of container/heap: while i has a child with a smaller
key, swap with the smaller child and continue from it. -/
def siftDown (l : List HeapItem) (i : Nat) : List HeapItem :=
  if h1 : 2 * i + 1 < l.length then
    if hkey l (pickChild l i) < hkey l i then
      siftDown (hswap l i (pickChild l i)) (pickChild l i)
    else l
  else l
termination_by l.length - i
decreasing_by
  simp_wf
  rw [hswap_length]
  have h2 := pickChild_gt l i
  have h3 := pickChild_lt_length l i h1
  omega

/-- heap.Push: append the new item at the end, then sift it up. -/
def heapPush (l : List HeapItem) (x : HeapItem) : List HeapItem :=
  siftUp (l ++ [x]) l.length

/-- Remaining slice after heap.Pop: Pop swaps the root with the last
slot, sifts the new root down within the first n-1 slots, and removes
the last slot; since the bounded down loop never touches the last slot,
removing it first is equivalent. -/
def heapPopped (l : List HeapItem) : List HeapItem :=
  siftDown ((hswap l 0 (l.length - 1)).dropLast) 0

/-- Queue errors from priority_queue.go. -/
inductive QueueError where
  | queueFull
  | queueEmpty
deriving Repr, DecidableEq

/-- PriorityURLQueue from priority_queue.go: the heap slice plus the
configured capacity (maxSize; the refilling flag and storage reference
drive a background goroutine outside this model). -/
structure PriorityURLQueue where
  heap : List HeapItem
  maxSize : Nat
deriving Repr

/-- Priority computed in Push: int64(task.Depth*1000) + task.Timestamp.Unix(). -/
def taskPriority (t : URLTask) : Int :=
  (t.depth : Int) * 1000 + t.timestamp

/-- PriorityURLQueue.Push (priority_queue.go lines 78-97): reject with
ErrQueueFull when the heap is at or above capacity, before any heap
mutation; otherwise insert the item with its computed priority. -/
def PriorityURLQueue.push (q : PriorityURLQueue) (t : URLTask) :
    Except QueueError PriorityURLQueue :=
  if q.heap.length ≥ q.maxSize then .error .queueFull
  else .ok { q with heap := heapPush q.heap { task := t, priority := taskPriority t } }

/-- PriorityURLQueue.Pop (priority_queue.go lines 100-116): ErrQueueEmpty
on an empty heap, else remove and return the root item.  The refill
goroutine possibly spawned afterwards is asynchronous and outside this
model. -/
def PriorityURLQueue.pop (q : PriorityURLQueue) :
    Except QueueError (URLTask × PriorityURLQueue) :=
  if q.heap.length = 0 then .error .queueEmpty
  else .ok ((q.heap.getD 0 default).task, { q with heap := heapPopped q.heap })

/-- Binary-heap order of the slice: every non-root slot is at least its
parent (urlHeap.Less compares priority values, lower first).  Stated
over List.range so the property is decidable on concrete heaps. -/
def HeapInv (l : List HeapItem) : Prop :=
  ∀ j ∈ List.range l.length, 0 < j → hkey l ((j - 1) / 2) ≤ hkey l j

instance (l : List HeapItem) : Decidable (HeapInv l) := by
  unfold HeapInv
  infer_instance

/-- Strengthened invariant threaded through the up loop: every
parent-child edge holds except possibly the one into slot i, and the
children of slot i are bounded below by the parent of i. -/
def AlmostUp (l : List HeapItem) (i : Nat) : Prop :=
  (∀ j, 0 < j → j < l.length → j ≠ i → hkey l ((j - 1) / 2) ≤ hkey l j) ∧
  (0 < i → ∀ j, j < l.length → (j - 1) / 2 = i → hkey l ((i - 1) / 2) ≤ hkey l j)

/-- Strengthened invariant threaded through the down loop: every
parent-child edge holds except possibly those out of slot i, and the
children of slot i are bounded below by the parent of i. -/
def AlmostDown (l : List HeapItem) (i : Nat) : Prop :=
  (∀ j, 0 < j → j < l.length → (j - 1) / 2 ≠ i → hkey l ((j - 1) / 2) ≤ hkey l j) ∧
  (0 < i → ∀ j, j < l.length → (j - 1) / 2 = i → hkey l ((i - 1) / 2) ≤ hkey l j)

/-! URL parsing.  IsValidURL (internal/domain/crawler.go), the dashboard
URL validation (handleAddURLs) and RobotsChecker.CanFetch all go through
the Go standard library function net/url.Parse.  The fragment of Parse
those callers depend on is modelled here: control-byte rejection, the
scheme grammar (with the missing-protocol-scheme error), splitting off
fragment and query, authority/host extraction after a double slash, and
host validation (the character set net/url accepts in a host, plus the
all-digits port rule).  Percent-escapes, IPv6 literals and userinfo
validation are not modelled; none of the inputs in this development use
them. -/

/-- Result of net/url getScheme: hard error (colon at position zero),
no scheme (the whole input is the remainder), or a scheme followed by
the remainder after the colon. -/
inductive SchemeScan where
  | schemeErr
  | schemeNone
  | schemeFound (scheme : List Char) (rest : List Char)
deriving Repr, DecidableEq

/-- Scheme scanner loop of net/url getScheme: letters always allowed;
digits and plus, minus, dot allowed after the first character (at the
first character they mean no scheme); a colon ends the scheme (error if
it is the first character); any other character means no scheme. -/
def getSchemeGo : List Char → Nat → List Char → SchemeScan
  | [], _, _ => .schemeNone
  | c :: cs, i, acc =>
    if c.isAlpha then getSchemeGo cs (i + 1) (acc ++ [c])
    else if c.isDigit ∨ c = '+' ∨ c = '-' ∨ c = '.' then
      if i = 0 then .schemeNone else getSchemeGo cs (i + 1) (acc ++ [c])
    else if c = ':' then
      if i = 0 then .schemeErr else .schemeFound acc cs
    else .schemeNone

/-- Whether the raw URL contains an ASCII control byte, the first check
of net/url.Parse (stringContainsCTLByte). -/
def containsCTLByte (s : String) : Bool :=
  s.data.any (fun c => c.toNat < 0x20 ∨ c.toNat = 0x7f)

/-- Characters net/url accepts in a host without escaping: alphanumerics,
the RFC 3986 unreserved marks and sub-delims (shouldEscape with the
encodeHost mode), plus any non-ASCII character.  The code list is
- _ . ~ ! $ & apostrophe ( ) * + , ; = : [ ] < > and double quote. -/
def isHostAllowedChar (c : Char) : Bool :=
  c.isAlphanum
    ∨ [45, 95, 46, 126, 33, 36, 38, 39, 40, 41, 42, 43, 44, 59, 61, 58,
       91, 93, 60, 62, 34].contains c.toNat
    ∨ c.toNat ≥ 128

/-- Port rule of net/url validOptionalPort: if the host contains a colon,
everything after the last colon must be digits (possibly none). -/
def hostPortValid (cs : List Char) : Bool :=
  if cs.contains ':' then
    ((cs.reverse.takeWhile (fun c => c ≠ ':')).reverse).all Char.isDigit
  else true

/-- Host part of an authority: the segment after the last at sign
(userinfo is split off and not validated in this model). -/
def afterLastAt (cs : List Char) : List Char :=
  if cs.contains '@' then (cs.reverse.takeWhile (fun c => c ≠ '@')).reverse
  else cs

/-- Parsed URL: the three fields of net/url.URL that the crawler reads
(Scheme, Host, Path).  Opaque URLs (scheme followed by a non-slash
remainder) are represented with the remainder in path and empty host;
no caller distinguishes them. -/
structure GoURL where
  scheme : String
  host : String
  path : String
deriving Repr, DecidableEq, Inhabited

/-- Remainder parsing of net/url parse: strip fragment and query, then
either a double slash introduces an authority (host checked against the
net/url host rules, path is the rest), or everything is path. -/
def goURLParseRest (scheme : String) (rest0 : List Char) : Option GoURL :=
  let rest1 := rest0.takeWhile (fun c => c ≠ '#')
  let rest := rest1.takeWhile (fun c => c ≠ '?')
  match rest with
  | '/' :: '/' :: auth0 =>
      let authority := auth0.takeWhile (fun c => c ≠ '/')
      let path := auth0.dropWhile (fun c => c ≠ '/')
      let hostPart := afterLastAt authority
      if hostPortValid hostPart ∧ hostPart.all isHostAllowedChar then
        some { scheme := scheme, host := String.mk hostPart, path := String.mk path }
      else none
  | _ => some { scheme := scheme, host := "", path := String.mk rest }

/-- Model of net/url.Parse restricted to the fields the crawler uses:
none is a parse error (control byte, missing protocol scheme, or invalid
host), some carries scheme (lowercased as Parse does), host and path. -/
def goURLParse (s : String) : Option GoURL :=
  if containsCTLByte s then none
  else
    match getSchemeGo s.data 0 [] with
    | .schemeErr => none
    | .schemeNone => goURLParseRest "" s.data
    | .schemeFound sch rest =>
        goURLParseRest (String.mk (sch.map Char.toLower)) rest

/-- IsValidURL from internal/domain/crawler.go: non-empty, parses, and
the scheme is http or https. -/
def IsValidURL (s : String) : Bool :=
  if s = "" then false
  else
    match goURLParse s with
    | none => false
    | some u => u.scheme == "http" || u.scheme == "https"

/-- GetDomain from internal/domain/crawler.go: the host of the parsed
URL, empty on parse failure. -/
def GetDomain (s : String) : String :=
  match goURLParse s with
  | none => ""
  | some u => u.host

/-! Dashboard URL injection, handleAddURLs in the web dashboard file.
The handler trims each submitted URL, skips blanks, validates with
url.Parse plus non-empty scheme and non-empty host, then creates
depth-0 tasks for the valid ones and pushes them to the queue. -/

/-- Outcome of handleAddURLs: the added count, the reported invalid
URLs, every URLTask the handler constructed, the push failure messages
count, and the queue after the pushes. -/
structure AddURLsOutcome where
  added : Nat
  invalidURLs : List String
  createdTasks : List URLTask
  pushErrors : Nat
  queue : PriorityURLQueue
deriving Repr

/-- ASCII whitespace as unicode.IsSpace classifies it (space, tab,
newline, carriage return, vertical tab, form feed); the URLs the
endpoint handles are ASCII. -/
def isSpaceChar (c : Char) : Bool :=
  [32, 9, 10, 13, 11, 12].contains c.toNat

/-- strings.TrimSpace: drop leading and trailing whitespace. -/
def goTrimSpace (s : String) : String :=
  String.mk (((s.data.dropWhile isSpaceChar).reverse.dropWhile isSpaceChar).reverse)

/-- The handleAddURLs acceptance test: url.Parse succeeds and both
Scheme and Host are non-empty (err == nil && parsedURL.Scheme != "" &&
parsedURL.Host != "").  Note this does not require an http or https
scheme. -/
def dashURLValid (s : String) : Bool :=
  match goURLParse s with
  | some u => u.scheme != "" && u.host != ""
  | none => false

/-- One iteration of the handleAddURLs validation loop: trim, skip
blanks, and append to the valid or invalid list. -/
def addURLsValidateStep (acc : List String × List String) (raw : String) :
    List String × List String :=
  if goTrimSpace raw = "" then acc
  else if dashURLValid (goTrimSpace raw) then (acc.1 ++ [goTrimSpace raw], acc.2)
  else (acc.1, acc.2 ++ [goTrimSpace raw])

/-- Validation loop of handleAddURLs: partition the trimmed non-blank
inputs into valid and invalid. -/
def addURLsValidate (urls : List String) : List String × List String :=
  urls.foldl addURLsValidateStep ([], [])

/-- One iteration of the handleAddURLs push loop: build a depth-0 task
(timestamp is the current time) and push; a failed push is reported, a
successful one counts as added.  Accumulator: (added, push errors,
tasks built, queue). -/
def addURLsPushStep (now : Int)
    (acc : Nat × Nat × List URLTask × PriorityURLQueue) (v : String) :
    Nat × Nat × List URLTask × PriorityURLQueue :=
  match acc.2.2.2.push { url := v, depth := 0, timestamp := now, retries := 0 } with
  | .error _ =>
      (acc.1, acc.2.1 + 1,
       acc.2.2.1 ++ [{ url := v, depth := 0, timestamp := now, retries := 0 }], acc.2.2.2)
  | .ok q' =>
      (acc.1 + 1, acc.2.1,
       acc.2.2.1 ++ [{ url := v, depth := 0, timestamp := now, retries := 0 }], q')

/-- Push loop of handleAddURLs over the valid URLs. -/
def addURLsPush (valid : List String) (now : Int) (q : PriorityURLQueue) :
    Nat × Nat × List URLTask × PriorityURLQueue :=
  valid.foldl (addURLsPushStep now) (0, 0, [], q)

/-- handleAddURLs: validation phase then push phase. -/
def handleAddURLs (urls : List String) (now : Int) (q : PriorityURLQueue) :
    AddURLsOutcome :=
  let va := addURLsValidate urls
  let pu := addURLsPush va.1 now q
  { added := pu.1, invalidURLs := va.2, createdTasks := pu.2.2.1,
    pushErrors := pu.2.1, queue := pu.2.2.2 }

/-! Robots policy, RobotsChecker.CanFetch.  The robotstxt library data
and the network fetch are oracles: getRobots maps a host to the cached
RobotsData (none models every path on which the Go code caches nil -
fetch failure on both https and http, a non-200 status, or a parse
failure), and a RobotsData is its FindGroup function together with the
per-group path test. -/

/-- A robots user-agent group, reduced to its path test. -/
structure RobotsGroup where
  test : String → Bool

/-- Cached robots data: FindGroup by user agent. -/
structure RobotsData where
  findGroup : String → Option RobotsGroup

/-- RobotsChecker.CanFetch: parse the URL (false on parse error), look
up the host (permissive when nothing is cached or fetchable), find the
matching group (explicit agent, else the star group, else permissive),
and test the path. -/
def canFetch (getRobots : String → Option RobotsData)
    (userAgent : String) (urlStr : String) : Bool :=
  match goURLParse urlStr with
  | none => false
  | some u =>
      match getRobots u.host with
      | none => true
      | some robots =>
          match robots.findGroup userAgent with
          | some g => g.test u.path
          | none =>
              match robots.findGroup "*" with
              | some g => g.test u.path
              | none => true

/-! Backlog namespace of BadgerStorage (pkg/metrics/collector.go,
storage part).  The url database is modelled as its key-value contents:
an association list sorted by key, as a Badger iterator yields entries.
StoreURL writes under key "url:" followed by the URL; GetURLs reads up
to limit entries with that key prefix in key order and then deletes the
keys recomputed from the returned tasks in one write batch. -/

/-- Key layout of StoreURL: URLPrefix + task.URL. -/
def urlKey (u : String) : String := "url:" ++ u

/-- ValidForPrefix of the Badger iterator: byte-prefix test on the key. -/
def keyHasUrlPref (k : String) : Bool := "url:".data.isPrefixOf k.data

/-- Read loop of BadgerStorage.GetURLs: iterate entries whose key has
the url prefix, in key order, stopping after limit entries, collecting
the deserialized tasks. -/
def getURLsRead (entries : List (String × URLTask)) (limit : Nat) : List URLTask :=
  ((entries.filter (fun e => keyHasUrlPref e.1)).take limit).map (fun e => e.2)

/-- BadgerStorage.deleteURLsBatch: delete the key recomputed from each
returned task, in one batch. -/
def deleteURLsBatch (entries : List (String × URLTask)) (tasks : List URLTask) :
    List (String × URLTask) :=
  entries.filter (fun e => ! (tasks.map (fun t => urlKey t.url)).contains e.1)

/-- BadgerStorage.GetURLs: destructive read; the batch delete runs only
when at least one task was read, exactly as the Go code guards it. -/
def getURLs (entries : List (String × URLTask)) (limit : Nat) :
    List URLTask × List (String × URLTask) :=
  let tasks := getURLsRead entries limit
  if tasks.length > 0 then (tasks, deleteURLsBatch entries tasks)
  else (tasks, entries)

/-- Well-formed backlog contents: keys strictly increasing in byte
order (Badger iterates in strictly increasing key order and keys are
unique; for the textual keys here byte order is the lexicographic order
of the character lists) and every entry is keyed by the url prefix plus
its own task URL, the invariant StoreURL establishes. -/
def BacklogWF (entries : List (String × URLTask)) : Prop :=
  entries.Pairwise (fun a b => a.1.data < b.1.data)
    ∧ ∀ e ∈ entries, e.1 = urlKey e.2.url

instance (entries : List (String × URLTask)) : Decidable (BacklogWF entries) := by
  unfold BacklogWF
  infer_instance

/-! Dead-link sub-pipeline of the content extractor
(internal/infrastructure/extractor.go).  CheckDeadLinks samples 20
percent of the links, enqueues them on the bounded channel, and returns
immediately with two empty lists; the channel is modelled as a list
bounded by its capacity, and the rand.Intn draws of the Fisher-Yates
shuffle are an oracle rand (reduced modulo the bound, so any oracle
yields in-range indices as rand.Intn does). -/

/-- Capacity of the linkQueue channel (make chan with 1000). -/
def linkQueueCap : Nat := 1000

/-- Element swap used by the shuffle. -/
def swapStr (l : List String) (i j : Nat) : List String :=
  (l.set i (l.getD j "")).set j (l.getD i "")

/-- Fisher-Yates loop of sampleLinks: for i from len-1 down to 1, swap
slot i with slot rand(i) mod (i+1). -/
def fyShuffleGo (rand : Nat → Nat) : List String → Nat → List String
  | l, 0 => l
  | l, (i + 1) => fyShuffleGo rand (swapStr l (i + 1) (rand (i + 1) % (i + 2))) i

/-- Shuffle of a copied slice, as sampleLinks performs it. -/
def fyShuffle (l : List String) (rand : Nat → Nat) : List String :=
  fyShuffleGo rand l (l.length - 1)

/-- Number of links sampled: int(float64(len)*0.2) in Go, which equals
len/5 in integer arithmetic (0.2 rounds up as a float, so the product
never falls below the exact value and truncation yields the exact
quotient), raised to 1 when it would be 0 and links exist. -/
def sampleSize (n : Nat) : Nat :=
  if n / 5 = 0 ∧ n > 0 then 1 else n / 5

/-- ContentExtractor.sampleLinks with the 0.2 fraction: shuffle a copy
and take the first sampleSize elements. -/
def sampleLinks (links : List String) (rand : Nat → Nat) : List String :=
  (fyShuffle links rand).take (sampleSize links.length)

/-- queueLinksForChecking: non-blocking channel send per link; when the
channel is full the link is dropped. -/
def queueLinksForChecking (chan : List (String × String)) (links : List String)
    (src : String) : List (String × String) :=
  links.foldl
    (fun ch link => if ch.length < linkQueueCap then ch ++ [(link, src)] else ch)
    chan

/-- ContentExtractor.CheckDeadLinks: sample, enqueue for the async
workers, and return two empty lists immediately; no probe is performed
on this path. -/
def CheckDeadLinks (links : List String) (sourceURL : String) (rand : Nat → Nat)
    (chan : List (String × String)) :
    (List String × List String) × List (String × String) :=
  let sampled := sampleLinks links rand
  let chan' := queueLinksForChecking chan sampled sourceURL
  (([], []), chan')

/-! Crawler service (internal/application/crawler_service.go).  One
processURL call is modelled as a pure function of the task, the shared
mutable state, and an oracle environment carrying the outcomes of the
robots check, the rate-limiter wait, the HTTP fetch, the goquery-based
extraction functions, the sampling randomness and the current time. -/

/-- CrawlMode from internal/domain/crawler.go. -/
inductive CrawlMode where
  | email
  | keywords
  | domains
  | all
deriving Repr, DecidableEq

/-- Substring scan over character lists: the pattern occurs at some
position of the list.  This is strings.Contains (an empty pattern is
always found). -/
def listContainsSub (pat : List Char) : List Char → Bool
  | [] => pat.isEmpty
  | c :: rest => pat.isPrefixOf (c :: rest) || listContainsSub pat rest

/-- strings.Contains on strings. -/
def containsSubstr (s pat : String) : Bool :=
  listContainsSub pat.data s.data

/-- strings.ToLower restricted to ASCII, which is all the content-type
comparison needs. -/
def strToLower (s : String) : String :=
  String.mk (s.data.map Char.toLower)

/-- An HTTP response as the fetch path sees it: the Content-Type header
value (empty string when the header is absent, as Header.Get returns),
the status code, and the body. -/
structure HTTPResponse where
  contentType : String
  statusCode : Nat
  body : String
deriving Repr, DecidableEq, Inhabited

/-- CrawlerService.fetchURL (lines 225-257): on transport error the
status is 0 and the error is returned; if a Content-Type is present and
contains neither text/html nor application/xhtml (case-insensitively),
return the recorded status with a skipped non-HTML content error; else
read the body through a 2 MiB limit reader.  Result is (content,
status, optional error). -/
def fetchURL (resp : Except String HTTPResponse) : String × Nat × Option String :=
  match resp with
  | .error msg => ("", 0, some msg)
  | .ok r =>
      if r.contentType ≠ ""
          ∧ ¬ (containsSubstr (strToLower r.contentType) "text/html")
          ∧ ¬ (containsSubstr (strToLower r.contentType) "application/xhtml") then
        ("", r.statusCode, some ("skipped non-HTML content: " ++ r.contentType))
      else
        (r.body.take (2 * 1024 * 1024), r.statusCode, none)

/-- Counters of the live MetricsCollector (pkg/metrics/collector.go)
touched by processURL. -/
structure CollectorCounters where
  urlsProcessed : Nat
  emailsFound : Nat
  keywordsFound : Nat
  linksChecked : Nat
  deadLinksFound : Nat
  deadDomainsFound : Nat
  errors : Nat
deriving Repr, DecidableEq

/-- All-zero collector counters. -/
def CollectorCounters.zero : CollectorCounters :=
  { urlsProcessed := 0, emailsFound := 0, keywordsFound := 0,
    linksChecked := 0, deadLinksFound := 0, deadDomainsFound := 0, errors := 0 }

/-- Shared mutable state one worker step touches: the Bloom filter
(modelled as the set of added URLs; a false positive only skips an
enqueue and is not modelled), the frontier queue, the tasks spilled to
storage by StoreURL, the dead-link channel, the collector counters and
the storage counters. -/
structure CrawlState where
  bloom : List String
  queue : PriorityURLQueue
  backlog : List URLTask
  linkChan : List (String × String)
  collector : CollectorCounters
  storage : StoreCounters
deriving Repr

/-- Oracle environment for one processURL call. -/
structure ProcEnv where
  robotsAllowed : Bool
  rateOk : Bool
  response : Except String HTTPResponse
  extractTitle : String → String
  extractEmails : String → List String
  extractKeywords : String → List String → List (String × Nat)
  extractLinks : String → String → List String
  rand : Nat → Nat
  now : Int

/-- CrawlerService.addNewURLs (lines 260-294): for each URL, skip when
invalid or already in the Bloom filter; otherwise add it to the filter,
build a task at the given depth, push it, and spill it to storage when
the queue is full.  The accumulator carries (reported new URLs, every
task built, state); addNewURLs folds this step over the URL list. -/
def addNewURLsStep (now : Int) (depth : Nat)
    (acc : List String × List URLTask × CrawlState) (url : String) :
    List String × List URLTask × CrawlState :=
  if ¬ IsValidURL url then acc
  else if acc.2.2.bloom.contains url then acc
  else
    let s : CrawlState := { acc.2.2 with bloom := acc.2.2.bloom ++ [url] }
    let task : URLTask := { url := url, depth := depth, timestamp := now, retries := 0 }
    let s' : CrawlState :=
      match s.queue.push task with
      | .ok q' => { s with queue := q' }
      | .error _ => { s with backlog := s.backlog ++ [task] }
    (acc.1 ++ [url], acc.2.1 ++ [task], s')

def addNewURLs (st : CrawlState) (now : Int) (urls : List String) (depth : Nat) :
    List String × List URLTask × CrawlState :=
  urls.foldl (addNewURLsStep now depth) ([], [], st)

/-- Deferred block of processURL: StoreResult on the storage and
UpdateURLsProcessed(1) on the collector run on every exit path. -/
def finalizeResult (st : CrawlState) (r : CrawlResult) : CrawlState :=
  { st with
      storage := badgerStoreResultCounters st.storage r,
      collector := { st.collector with urlsProcessed := st.collector.urlsProcessed + 1 } }

/-- Outcome of one processURL call: the persisted result, whether the
outbound GET was issued, every child task built by addNewURLs, and the
state afterwards. -/
structure ProcOutcome where
  result : CrawlResult
  fetchIssued : Bool
  createdTasks : List URLTask
  state : CrawlState

/-- Mode dispatch of processURL (the switch on lines 171-215): fills the
result findings and bumps the collector counters; in domains mode (and
in all mode when dead-link checking was requested) the links are
sampled into the dead-link channel and the result lists stay empty. -/
def processModeStep (env : ProcEnv) (st : CrawlState) (r : CrawlResult)
    (content : String) (taskURL : String) (mode : CrawlMode)
    (keywords : List String) (checkDeadDomains : Bool) :
    CrawlResult × CrawlState :=
  match mode with
  | .email =>
      let emails := env.extractEmails content
      ({ r with emails := emails },
       { st with collector :=
          { st.collector with emailsFound := st.collector.emailsFound + emails.length } })
  | .keywords =>
      let kws := env.extractKeywords content keywords
      let keywordCount := (kws.map (fun p => p.2)).sum
      ({ r with keywords := kws },
       { st with collector :=
          { st.collector with keywordsFound := st.collector.keywordsFound + keywordCount } })
  | .domains =>
      let links := env.extractLinks content taskURL
      let checked := CheckDeadLinks links taskURL env.rand st.linkChan
      let dls := checked.1.1
      let dds := checked.1.2
      ({ r with deadLinks := dls, deadDomains := dds },
       { st with
          linkChan := checked.2,
          collector :=
            { st.collector with
                linksChecked := st.collector.linksChecked + links.length,
                deadLinksFound := st.collector.deadLinksFound + dls.length,
                deadDomainsFound := st.collector.deadDomainsFound + dds.length } })
  | .all =>
      let emails := env.extractEmails content
      let kws := env.extractKeywords content keywords
      let r := { r with emails := emails, keywords := kws }
      let (r, st) :=
        if checkDeadDomains then
          let links := env.extractLinks content taskURL
          let checked := CheckDeadLinks links taskURL env.rand st.linkChan
          let dls := checked.1.1
          let dds := checked.1.2
          ({ r with deadLinks := dls, deadDomains := dds },
           { st with
              linkChan := checked.2,
              collector :=
                { st.collector with
                    linksChecked := st.collector.linksChecked + links.length,
                    deadLinksFound := st.collector.deadLinksFound + dls.length,
                    deadDomainsFound := st.collector.deadDomainsFound + dds.length } })
        else
          ({ r with deadLinks := [], deadDomains := [] }, st)
      let keywordCount := (kws.map (fun p => p.2)).sum
      (r,
       { st with collector :=
          { st.collector with
              emailsFound := st.collector.emailsFound + emails.length,
              keywordsFound := st.collector.keywordsFound + keywordCount } })

/-- CrawlerService.processURL (lines 124-222).  The shouldCheckDeadLinks
flag is checkDeadDomains or mode equal to domains, as in the Go helper.
Every path finalizes by storing the result and bumping the processed
counter. -/
def processURL (env : ProcEnv) (st : CrawlState) (task : URLTask)
    (maxDepth : Nat) (mode : CrawlMode) (keywords : List String)
    (checkDeadDomains : Bool) : ProcOutcome :=
  let base : CrawlResult :=
    { url := task.url, statusCode := 0, title := "", emails := [], keywords := [],
      deadLinks := [], deadDomains := [], newURLs := [], processedAt := env.now,
      error := "" }
  if ¬ env.robotsAllowed then
    let r := { base with error := "blocked by robots.txt" }
    { result := r, fetchIssued := false, createdTasks := [], state := finalizeResult st r }
  else if ¬ env.rateOk then
    let r := { base with error := "rate limit context cancelled" }
    { result := r, fetchIssued := false, createdTasks := [], state := finalizeResult st r }
  else
    let f := fetchURL env.response
    let content := f.1
    let status := f.2.1
    match f.2.2 with
    | some errMsg =>
        let r := { base with statusCode := status, error := errMsg }
        let st1 : CrawlState :=
          { st with collector := { st.collector with errors := st.collector.errors + 1 } }
        { result := r, fetchIssued := true, createdTasks := [],
          state := finalizeResult st1 r }
    | none =>
        let r0 := { base with statusCode := status, title := env.extractTitle content }
        let ms :=
          processModeStep env st r0 content task.url mode keywords
            (checkDeadDomains || mode == .domains)
        if task.depth < maxDepth then
          let links := env.extractLinks content task.url
          let anu := addNewURLs ms.2 env.now links (task.depth + 1)
          let r1 := { ms.1 with newURLs := anu.1 }
          { result := r1, fetchIssued := true, createdTasks := anu.2.1,
            state := finalizeResult anu.2.2 r1 }
        else
          { result := ms.1, fetchIssued := true, createdTasks := [],
            state := finalizeResult ms.2 ms.1 }

/-! Concrete objects used to exercise the theorems on explicit inputs. -/

/-- A persisted result with one keyword occurring twice on the page. -/
def kwResult : CrawlResult :=
  { url := "http://example.com/", statusCode := 200, title := "",
    emails := [], keywords := [("lean", 2)], deadLinks := [],
    deadDomains := [], newURLs := [], processedAt := 0, error := "" }

/-- A benign oracle environment: robots allow, rate limiter grants, the
response is an empty HTML page, extraction finds nothing. -/
def exEnv : ProcEnv :=
  { robotsAllowed := true, rateOk := true,
    response := .ok { contentType := "text/html", statusCode := 200, body := "" },
    extractTitle := fun _ => "", extractEmails := fun _ => [],
    extractKeywords := fun _ _ => [], extractLinks := fun _ _ => [],
    rand := fun _ => 0, now := 0 }

/-- The environment of a fetch answered with a PDF content type. -/
def pdfEnv : ProcEnv :=
  { exEnv with
      response := .ok { contentType := "application/pdf", statusCode := 200, body := "" } }

/-- A fresh crawl state with an empty frontier at the default capacity. -/
def exState : CrawlState :=
  { bloom := [], queue := { heap := [], maxSize := 100000 }, backlog := [],
    linkChan := [], collector := CollectorCounters.zero,
    storage := StoreCounters.init }

/-- A concrete seed task. -/
def exTask : URLTask :=
  { url := "http://example.com/", depth := 0, timestamp := 0, retries := 0 }

/-- A concrete three-element frontier in heap order. -/
def exQueue : PriorityURLQueue :=
  { heap :=
      [ { task := { url := "http://a/", depth := 0, timestamp := 1, retries := 0 },
          priority := 1 },
        { task := { url := "http://b/", depth := 1, timestamp := 2, retries := 0 },
          priority := 1002 },
        { task := { url := "http://c/", depth := 2, timestamp := 3, retries := 0 },
          priority := 2003 } ],
    maxSize := 100000 }

/-- A URL containing a control byte, which url.Parse rejects. -/
def ctlURL : String := "http://bad\nurl/"

/-- A concrete sorted backlog with three entries. -/
def exBacklog : List (String × URLTask) :=
  [ ("url:http://a/", { url := "http://a/", depth := 1, timestamp := 4, retries := 0 }),
    ("url:http://b/", { url := "http://b/", depth := 2, timestamp := 5, retries := 0 }),
    ("url:http://c/", { url := "http://c/", depth := 3, timestamp := 6, retries := 0 }) ]

lemma heapInv_iff (l : List HeapItem) :
    HeapInv l ↔ ∀ j, 0 < j → j < l.length → hkey l ((j - 1) / 2) ≤ hkey l j := by
  unfold HeapInv
  constructor
  · intro h j hj0 hjl
    exact h j (List.mem_range.mpr hjl) hj0
  · intro h j hj hj0
    exact h j hj0 (List.mem_range.mp hj)

lemma getDSetSelf {α : Type} (l : List α) (i : Nat) (x d : α) (h : i < l.length) :
    (l.set i x).getD i d = x := by
  induction l generalizing i with
  | nil => simp at h
  | cons a as ih =>
      cases i with
      | zero => simp
      | succ n =>
          simp only [List.set_cons_succ, List.getD_cons_succ]
          exact ih n (by simpa using h)

lemma getDSetOther {α : Type} (l : List α) (i k : Nat) (x d : α) (h : k ≠ i) :
    (l.set i x).getD k d = l.getD k d := by
  induction l generalizing i k with
  | nil => simp
  | cons a as ih =>
      cases i with
      | zero =>
          cases k with
          | zero => exact absurd rfl h
          | succ m => simp
      | succ n =>
          cases k with
          | zero => simp
          | succ m =>
              simp only [List.set_cons_succ, List.getD_cons_succ]
              exact ih n m (by omega)

lemma getD_hswap (l : List HeapItem) (i j k : Nat) (hi : i < l.length)
    (hj : j < l.length) :
    (hswap l i j).getD k default =
      if k = j then l.getD i default
      else if k = i then l.getD j default
      else l.getD k default := by
  unfold hswap
  by_cases h1 : k = j
  · subst h1
    rw [if_pos rfl, getDSetSelf _ _ _ _ (by simpa using hj)]
  · rw [if_neg h1, getDSetOther _ _ _ _ _ h1]
    by_cases h2 : k = i
    · subst h2
      rw [if_pos rfl, getDSetSelf _ _ _ _ hi]
    · rw [if_neg h2, getDSetOther _ _ _ _ _ h2]

lemma hkey_hswap (l : List HeapItem) (i j k : Nat) (hi : i < l.length)
    (hj : j < l.length) :
    hkey (hswap l i j) k =
      if k = j then hkey l i else if k = i then hkey l j else hkey l k := by
  unfold hkey
  rw [getD_hswap l i j k hi hj,
    apply_ite (fun x : HeapItem => x.priority),
    apply_ite (fun x : HeapItem => x.priority)]

lemma hkey_append (l : List HeapItem) (x : HeapItem) (k : Nat) (h : k < l.length) :
    hkey (l ++ [x]) k = hkey l k := by
  unfold hkey
  rw [List.getD_append _ _ _ _ h]

lemma hkey_dropLast (l : List HeapItem) (k : Nat) (h : k < l.length - 1) :
    hkey l.dropLast k = hkey l k := by
  unfold hkey
  rw [List.getD_eq_getElem?_getD, List.getD_eq_getElem?_getD, List.getElem?_dropLast,
    if_pos h]

lemma siftUp_length (l : List HeapItem) (j : Nat) :
    (siftUp l j).length = l.length := by
  induction l, j using siftUp.induct with
  | case1 l =>
      rw [siftUp]
      simp
  | case2 l j h1 h2 ih =>
      rw [siftUp, if_neg h1, if_pos h2, ih, hswap_length]
  | case3 l j h1 h2 =>
      rw [siftUp, if_neg h1, if_neg h2]

lemma siftDown_length (l : List HeapItem) (i : Nat) :
    (siftDown l i).length = l.length := by
  induction l, i using siftDown.induct with
  | case1 l i h1 h2 ih =>
      rw [siftDown, dif_pos h1, if_pos h2, ih, hswap_length]
  | case2 l i h1 h2 =>
      rw [siftDown, dif_pos h1, if_neg h2]
  | case3 l i h1 =>
      rw [siftDown, dif_neg h1]

lemma heapPush_length (l : List HeapItem) (x : HeapItem) :
    (heapPush l x).length = l.length + 1 := by
  unfold heapPush
  rw [siftUp_length]
  simp

lemma heapInv_root_min (l : List HeapItem) (h : HeapInv l) :
    ∀ i, i < l.length → hkey l 0 ≤ hkey l i := by
  have h' := (heapInv_iff l).mp h
  intro i
  induction i using Nat.strong_induction_on with
  | _ i ih =>
      intro hi
      rcases Nat.eq_zero_or_pos i with h0 | h0
      · subst h0; exact le_refl _
      · have hp : (i - 1) / 2 < i := by omega
        exact le_trans (ih _ hp (lt_trans hp hi)) (h' i h0 hi)

lemma siftUp_inv (l : List HeapItem) (j : Nat) :
    j < l.length → AlmostUp l j → HeapInv (siftUp l j) := by
  induction l, j using siftUp.induct with
  | case1 l =>
      intro _ h
      rw [siftUp, if_pos rfl, heapInv_iff]
      intro k hk0 hklen
      exact h.1 k hk0 hklen (by omega)
  | case2 l j hne hlt ih =>
      intro hj h
      rw [siftUp, if_neg hne, if_pos hlt]
      have hp : (j - 1) / 2 < j := by omega
      have hpl : (j - 1) / 2 < l.length := lt_trans hp hj
      apply ih
      · rw [hswap_length]; exact hpl
      · -- AlmostUp of the swapped list at the parent slot
        have hk := fun k => hkey_hswap l ((j - 1) / 2) j k hpl hj
        constructor
        · intro k hk0 hklen hkp
          rw [hswap_length] at hklen
          rw [hk k]
          by_cases hkj : k = j
          · rw [if_pos hkj, hkj, hk ((j - 1) / 2), if_neg (by omega), if_pos rfl]
            exact le_of_lt hlt
          · rw [if_neg hkj, if_neg hkp, hk ((k - 1) / 2)]
            by_cases hqj : (k - 1) / 2 = j
            · rw [if_pos hqj]
              exact h.2 (by omega) k hklen hqj
            · rw [if_neg hqj]
              by_cases hqp : (k - 1) / 2 = (j - 1) / 2
              · rw [if_pos hqp]
                have hbase := h.1 k hk0 hklen hkj
                rw [hqp] at hbase
                exact le_trans (le_of_lt hlt) hbase
              · rw [if_neg hqp]
                exact h.1 k hk0 hklen hkj
        · intro hp0 k hklen hkpar
          rw [hswap_length] at hklen
          have hkgt : (j - 1) / 2 < k := by omega
          have hk0 : 0 < k := by omega
          have hknej : ((j - 1) / 2 - 1) / 2 ≠ j := by omega
          have hknep : ((j - 1) / 2 - 1) / 2 ≠ (j - 1) / 2 := by omega
          rw [hk (((j - 1) / 2 - 1) / 2), if_neg hknej, if_neg hknep, hk k]
          by_cases hkj : k = j
          · rw [if_pos hkj]
            have := h.1 ((j - 1) / 2) hp0 hpl (by omega)
            exact this
          · rw [if_neg hkj, if_neg (by omega)]
            have h1 := h.1 ((j - 1) / 2) hp0 hpl (by omega)
            have h2 := h.1 k hk0 hklen hkj
            rw [hkpar] at h2
            exact le_trans h1 h2
  | case3 l j hne hnlt =>
      intro hj h
      rw [siftUp, if_neg hne, if_neg hnlt, heapInv_iff]
      intro k hk0 hklen
      by_cases hkj : k = j
      · subst hkj
        exact le_of_not_lt hnlt
      · exact h.1 k hk0 hklen hkj

lemma heapPush_inv (l : List HeapItem) (x : HeapItem) (h : HeapInv l) :
    HeapInv (heapPush l x) := by
  have h' := (heapInv_iff l).mp h
  unfold heapPush
  apply siftUp_inv
  · simp
  · constructor
    · intro j hj0 hjlen hne
      have hjlen' : j < l.length := by
        simp only [List.length_append, List.length_cons, List.length_nil] at hjlen
        omega
      have hq : (j - 1) / 2 < l.length := lt_of_le_of_lt (by omega) hjlen'
      rw [hkey_append _ _ _ hjlen', hkey_append _ _ _ hq]
      exact h' j hj0 hjlen'
    · intro hi0 j hjlen hpar
      exfalso
      simp only [List.length_append, List.length_cons, List.length_nil] at hjlen
      omega

lemma pickChild_eq (l : List HeapItem) (i : Nat) :
    pickChild l i = 2 * i + 1 ∨ pickChild l i = 2 * i + 2 := by
  unfold pickChild
  split
  · right; rfl
  · left; rfl

lemma pickChild_min (l : List HeapItem) (i : Nat) (h : 2 * i + 1 < l.length) :
    hkey l (pickChild l i) ≤ hkey l (2 * i + 1)
      ∧ (2 * i + 2 < l.length → hkey l (pickChild l i) ≤ hkey l (2 * i + 2)) := by
  unfold pickChild
  split
  next hc =>
    exact ⟨le_of_lt hc.2, fun _ => le_refl _⟩
  next hc =>
    push_neg at hc
    refine ⟨le_refl _, fun h2 => hc h2⟩

lemma siftDown_inv (l : List HeapItem) (i : Nat) :
    i < l.length → AlmostDown l i → HeapInv (siftDown l i) := by
  induction l, i using siftDown.induct with
  | case1 l i h1 h2 ih =>
      intro hi h
      rw [siftDown, dif_pos h1, if_pos h2]
      have hci : i < pickChild l i := pickChild_gt l i
      have hcl : pickChild l i < l.length := pickChild_lt_length l i h1
      have hcpar : (pickChild l i - 1) / 2 = i := by
        rcases pickChild_eq l i with hc | hc <;> omega
      apply ih
      · rw [hswap_length]; exact hcl
      · have hk := fun k => hkey_hswap l i (pickChild l i) k hi hcl
        constructor
        · intro k hk0 hklen hkp
          rw [hswap_length] at hklen
          rw [hk k]
          by_cases hkc : k = pickChild l i
          · subst hkc
            rw [if_pos rfl, hk ((pickChild l i - 1) / 2), hcpar,
              if_neg (by omega), if_pos rfl]
            exact le_of_lt h2
          · rw [if_neg hkc]
            by_cases hki : k = i
            · have hi0 : 0 < i := hki ▸ hk0
              rw [if_pos hki, hki, hk ((i - 1) / 2), if_neg (by omega), if_neg (by omega)]
              exact h.2 hi0 (pickChild l i) hcl hcpar
            · rw [if_neg hki, hk ((k - 1) / 2)]
              by_cases hqc : (k - 1) / 2 = pickChild l i
              · exact absurd hqc hkp
              · rw [if_neg hqc]
                by_cases hqi : (k - 1) / 2 = i
                · rw [if_pos hqi]
                  have hmin := pickChild_min l i h1
                  have hkch : k = 2 * i + 1 ∨ k = 2 * i + 2 := by omega
                  rcases hkch with hkk | hkk
                  · subst hkk; exact hmin.1
                  · subst hkk; exact hmin.2 hklen
                · rw [if_neg hqi]
                  exact h.1 k hk0 hklen hqi
        · intro hc0 k hklen hkpar
          rw [hswap_length] at hklen
          have hkgt : pickChild l i < k := by omega
          rw [hk ((pickChild l i - 1) / 2), hcpar, if_neg (by omega), if_pos rfl,
            hk k, if_neg (by omega), if_neg (by omega)]
          have hres := h.1 k (by omega) hklen (by omega)
          rw [hkpar] at hres
          exact hres
  | case2 l i h1 h2 =>
      intro hi h
      rw [siftDown, dif_pos h1, if_neg h2, heapInv_iff]
      intro k hk0 hklen
      by_cases hqi : (k - 1) / 2 = i
      · have hmin := pickChild_min l i h1
        have hile : hkey l i ≤ hkey l (pickChild l i) := le_of_not_lt h2
        have hkch : k = 2 * i + 1 ∨ k = 2 * i + 2 := by omega
        rw [hqi]
        rcases hkch with hkk | hkk
        · subst hkk; exact le_trans hile hmin.1
        · subst hkk; exact le_trans hile (hmin.2 hklen)
      · exact h.1 k hk0 hklen hqi
  | case3 l i h1 =>
      intro hi h
      rw [siftDown, dif_neg h1, heapInv_iff]
      intro k hk0 hklen
      by_cases hqi : (k - 1) / 2 = i
      · exfalso; omega
      · exact h.1 k hk0 hklen hqi

lemma heapPopped_inv (l : List HeapItem) (h : HeapInv l) :
    HeapInv (heapPopped l) := by
  have h' := (heapInv_iff l).mp h
  unfold heapPopped
  rcases Nat.lt_or_ge l.length 2 with hlen | hlen
  · -- lists of length 0 or 1 leave an empty slice, on which the
    -- invariant is vacuous
    have : ((hswap l 0 (l.length - 1)).dropLast).length = 0 := by
      rw [List.length_dropLast, hswap_length]; omega
    rw [heapInv_iff]
    intro k hk0 hklen
    rw [siftDown_length, this] at hklen
    omega
  · apply siftDown_inv
    · rw [List.length_dropLast, hswap_length]; omega
    · constructor
      · intro k hk0 hklen hkp
        rw [List.length_dropLast, hswap_length] at hklen
        have hq3 : 3 ≤ k := by omega
        have hql : (k - 1) / 2 < (hswap l 0 (l.length - 1)).length - 1 := by
          rw [hswap_length]; omega
        have hkl : k < (hswap l 0 (l.length - 1)).length - 1 := by
          rw [hswap_length]; omega
        rw [hkey_dropLast _ _ hql, hkey_dropLast _ _ hkl,
          hkey_hswap l 0 (l.length - 1) _ (by omega) (by omega),
          hkey_hswap l 0 (l.length - 1) _ (by omega) (by omega),
          if_neg (by omega), if_neg (by omega), if_neg (by omega), if_neg (by omega)]
        exact h' k (by omega) (by omega)
      · intro h0 _ _ _
        exact absurd h0 (by omega)

lemma getD_zero_mem {α : Type} (l : List α) (d : α) (h : l ≠ []) :
    l.getD 0 d ∈ l := by
  cases l with
  | nil => exact absurd rfl h
  | cons a as => simp

lemma mem_min_of_root (l : List HeapItem) (h : HeapInv l) :
    ∀ it ∈ l, (l.getD 0 default).priority ≤ it.priority := by
  intro it hit
  rcases List.mem_iff_getElem.mp hit with ⟨n, hn, hval⟩
  have := heapInv_root_min l h n hn
  unfold hkey at this
  rw [List.getD_eq_getElem l default hn, hval] at this
  exact this

lemma badgerStore_emails (m : StoreCounters) (r : CrawlResult) :
    (badgerStoreResultCounters m r).emailsFound = m.emailsFound + r.emails.length := by
  simp only [badgerStoreResultCounters]
  split
  · rfl
  · omega

lemma badgerStore_keywords (m : StoreCounters) (r : CrawlResult) :
    (badgerStoreResultCounters m r).keywordsFound = m.keywordsFound + r.keywords.length := by
  simp only [badgerStoreResultCounters]
  split
  · rfl
  · omega

lemma badgerStore_deadLinks (m : StoreCounters) (r : CrawlResult) :
    (badgerStoreResultCounters m r).deadLinksFound = m.deadLinksFound + r.deadLinks.length := by
  simp only [badgerStoreResultCounters]
  split
  · rfl
  · omega

lemma badgerStore_deadDomains (m : StoreCounters) (r : CrawlResult) :
    (badgerStoreResultCounters m r).deadDomainsFound = m.deadDomainsFound + r.deadDomains.length := by
  simp only [badgerStoreResultCounters]
  split
  · rfl
  · omega

lemma fileStore_emails (m : StoreCounters) (r : CrawlResult) :
    (fileStoreResultCounters m r).emailsFound = m.emailsFound + r.emails.length := by
  simp only [fileStoreResultCounters]
  split
  · rfl
  · omega

lemma fileStore_keywords (m : StoreCounters) (r : CrawlResult) :
    (fileStoreResultCounters m r).keywordsFound = m.keywordsFound + r.keywords.length := by
  simp only [fileStoreResultCounters]
  split
  · rfl
  · omega

lemma badgerStoreAll_emails (m : StoreCounters) (rs : List CrawlResult) :
    (badgerStoreAll m rs).emailsFound
      = m.emailsFound + (rs.map (fun r => r.emails.length)).sum := by
  induction rs generalizing m with
  | nil => simp [badgerStoreAll]
  | cons r rs ih =>
      simp only [badgerStoreAll, List.foldl_cons, List.map_cons, List.sum_cons]
      rw [show (List.foldl badgerStoreResultCounters (badgerStoreResultCounters m r) rs)
            = badgerStoreAll (badgerStoreResultCounters m r) rs from rfl]
      rw [ih, badgerStore_emails]
      omega

lemma badgerStoreAll_keywords (m : StoreCounters) (rs : List CrawlResult) :
    (badgerStoreAll m rs).keywordsFound
      = m.keywordsFound + (rs.map (fun r => r.keywords.length)).sum := by
  induction rs generalizing m with
  | nil => simp [badgerStoreAll]
  | cons r rs ih =>
      simp only [badgerStoreAll, List.foldl_cons, List.map_cons, List.sum_cons]
      rw [show (List.foldl badgerStoreResultCounters (badgerStoreResultCounters m r) rs)
            = badgerStoreAll (badgerStoreResultCounters m r) rs from rfl]
      rw [ih, badgerStore_keywords]
      omega

lemma badgerStoreAll_deadLinks (m : StoreCounters) (rs : List CrawlResult) :
    (badgerStoreAll m rs).deadLinksFound
      = m.deadLinksFound + (rs.map (fun r => r.deadLinks.length)).sum := by
  induction rs generalizing m with
  | nil => simp [badgerStoreAll]
  | cons r rs ih =>
      simp only [badgerStoreAll, List.foldl_cons, List.map_cons, List.sum_cons]
      rw [show (List.foldl badgerStoreResultCounters (badgerStoreResultCounters m r) rs)
            = badgerStoreAll (badgerStoreResultCounters m r) rs from rfl]
      rw [ih, badgerStore_deadLinks]
      omega

lemma badgerStoreAll_deadDomains (m : StoreCounters) (rs : List CrawlResult) :
    (badgerStoreAll m rs).deadDomainsFound
      = m.deadDomainsFound + (rs.map (fun r => r.deadDomains.length)).sum := by
  induction rs generalizing m with
  | nil => simp [badgerStoreAll]
  | cons r rs ih =>
      simp only [badgerStoreAll, List.foldl_cons, List.map_cons, List.sum_cons]
      rw [show (List.foldl badgerStoreResultCounters (badgerStoreResultCounters m r) rs)
            = badgerStoreAll (badgerStoreResultCounters m r) rs from rfl]
      rw [ih, badgerStore_deadDomains]
      omega

lemma fileStoreAll_emails (m : StoreCounters) (rs : List CrawlResult) :
    (fileStoreAll m rs).emailsFound
      = m.emailsFound + (rs.map (fun r => r.emails.length)).sum := by
  induction rs generalizing m with
  | nil => simp [fileStoreAll]
  | cons r rs ih =>
      simp only [fileStoreAll, List.foldl_cons, List.map_cons, List.sum_cons]
      rw [show (List.foldl fileStoreResultCounters (fileStoreResultCounters m r) rs)
            = fileStoreAll (fileStoreResultCounters m r) rs from rfl]
      rw [ih, fileStore_emails]
      omega

lemma fileStoreAll_keywords (m : StoreCounters) (rs : List CrawlResult) :
    (fileStoreAll m rs).keywordsFound
      = m.keywordsFound + (rs.map (fun r => r.keywords.length)).sum := by
  induction rs generalizing m with
  | nil => simp [fileStoreAll]
  | cons r rs ih =>
      simp only [fileStoreAll, List.foldl_cons, List.map_cons, List.sum_cons]
      rw [show (List.foldl fileStoreResultCounters (fileStoreResultCounters m r) rs)
            = fileStoreAll (fileStoreResultCounters m r) rs from rfl]
      rw [ih, fileStore_keywords]
      omega

lemma fileStoreAll_deadLinks (m : StoreCounters) (rs : List CrawlResult) :
    (fileStoreAll m rs).deadLinksFound = m.deadLinksFound := by
  induction rs generalizing m with
  | nil => simp [fileStoreAll]
  | cons r rs ih =>
      simp only [fileStoreAll, List.foldl_cons]
      exact ih _

lemma fileStoreAll_deadDomains (m : StoreCounters) (rs : List CrawlResult) :
    (fileStoreAll m rs).deadDomainsFound = m.deadDomainsFound := by
  induction rs generalizing m with
  | nil => simp [fileStoreAll]
  | cons r rs ih =>
      simp only [fileStoreAll, List.foldl_cons]
      exact ih _

/-- C1, counterexample: persisting a single result whose keyword map is
lean maps-to 2 leaves keywords_found = 1 (the number of map entries),
not 2 (the sum of per-keyword counts) as the claim requires. -/
theorem C1_keywords_counter_counterexample :
    (badgerStoreAll StoreCounters.init [kwResult]).keywordsFound
      ≠ ([kwResult].map keywordCountSum).sum := by
  decide

/-- C1, amended: under BadgerStorage.StoreResult, emails_found,
dead_links_found and dead_domains_found accumulate the lengths of the
corresponding result lists, but keywords_found accumulates the number
of distinct keywords recorded per result (the Go map length), not the
sum of the per-keyword counts; and FastFileStorage.StoreResult maintains
only the email and keyword counters, leaving the dead-link and
dead-domain counters unchanged. -/
theorem C1_store_counter_consistency (m : StoreCounters) (rs : List CrawlResult) :
    (badgerStoreAll m rs).emailsFound
        = m.emailsFound + (rs.map (fun r => r.emails.length)).sum
    ∧ (badgerStoreAll m rs).keywordsFound
        = m.keywordsFound + (rs.map (fun r => r.keywords.length)).sum
    ∧ (badgerStoreAll m rs).deadLinksFound
        = m.deadLinksFound + (rs.map (fun r => r.deadLinks.length)).sum
    ∧ (badgerStoreAll m rs).deadDomainsFound
        = m.deadDomainsFound + (rs.map (fun r => r.deadDomains.length)).sum
    ∧ (fileStoreAll m rs).emailsFound
        = m.emailsFound + (rs.map (fun r => r.emails.length)).sum
    ∧ (fileStoreAll m rs).keywordsFound
        = m.keywordsFound + (rs.map (fun r => r.keywords.length)).sum
    ∧ (fileStoreAll m rs).deadLinksFound = m.deadLinksFound
    ∧ (fileStoreAll m rs).deadDomainsFound = m.deadDomainsFound :=
  ⟨badgerStoreAll_emails m rs, badgerStoreAll_keywords m rs,
   badgerStoreAll_deadLinks m rs, badgerStoreAll_deadDomains m rs,
   fileStoreAll_emails m rs, fileStoreAll_keywords m rs,
   fileStoreAll_deadLinks m rs, fileStoreAll_deadDomains m rs⟩

/-- C4: when the robots check denies the task URL, no outbound GET is
issued, the persisted result's error field is exactly blocked by
robots.txt, and the collector's error counter (the Errors field of the
metrics the dashboard serves) is not incremented. -/
theorem C4_robots_denied (env : ProcEnv) (st : CrawlState) (task : URLTask)
    (maxDepth : Nat) (mode : CrawlMode) (kws : List String) (cdd : Bool)
    (hr : env.robotsAllowed = false) :
    (processURL env st task maxDepth mode kws cdd).fetchIssued = false
      ∧ (processURL env st task maxDepth mode kws cdd).result.error
          = "blocked by robots.txt"
      ∧ (processURL env st task maxDepth mode kws cdd).state.collector.errors
          = st.collector.errors := by
  unfold processURL
  simp [hr, finalizeResult]

/-- C4 witness: a concrete denied task is recorded with the exact error
string, without a fetch and without an error-counter bump. -/
theorem C4_robots_denied_witness :
    (processURL { exEnv with robotsAllowed := false } exState exTask 5 .email [] false).fetchIssued = false
      ∧ (processURL { exEnv with robotsAllowed := false } exState exTask 5 .email [] false).result.error
          = "blocked by robots.txt"
      ∧ (processURL { exEnv with robotsAllowed := false } exState exTask 5 .email [] false).state.collector.errors
          = exState.collector.errors :=
  C4_robots_denied { exEnv with robotsAllowed := false } exState exTask 5 .email [] false rfl

/-- C2, counterexample: fetching a page whose Content-Type is
application/pdf records status 200 and the skip error, but the error
counter is incremented (from 0 to 1), contradicting the claim that the
skip is error-free. -/
theorem C2_nonhtml_counterexample :
    (processURL pdfEnv exState exTask 5 .email [] false).result.statusCode = 200
      ∧ (processURL pdfEnv exState exTask 5 .email [] false).result.error
          = "skipped non-HTML content: application/pdf"
      ∧ (processURL pdfEnv exState exTask 5 .email [] false).state.collector.errors ≠ 0 := by
  decide

/-- C2, amended: for every fetched response with a present non-HTML
Content-Type, the worker records the status code and the error message
skipped non-HTML content followed by the content type, and the
collector's error counter is incremented by one (the skip is counted as
an error, UpdateErrors(1) on the fetch-error path). -/
theorem C2_nonhtml_skip (env : ProcEnv) (st : CrawlState) (task : URLTask)
    (maxDepth : Nat) (mode : CrawlMode) (kws : List String) (cdd : Bool)
    (resp : HTTPResponse)
    (hr : env.robotsAllowed = true) (hw : env.rateOk = true)
    (hresp : env.response = .ok resp)
    (hct : resp.contentType ≠ "")
    (h1 : containsSubstr (strToLower resp.contentType) "text/html" = false)
    (h2 : containsSubstr (strToLower resp.contentType) "application/xhtml" = false) :
    (processURL env st task maxDepth mode kws cdd).result.statusCode = resp.statusCode
      ∧ (processURL env st task maxDepth mode kws cdd).result.error
          = "skipped non-HTML content: " ++ resp.contentType
      ∧ (processURL env st task maxDepth mode kws cdd).state.collector.errors
          = st.collector.errors + 1 := by
  unfold processURL fetchURL
  simp [hr, hw, hresp, hct, h1, h2, finalizeResult]

/-- C2 witness: the amended statement at the concrete PDF response. -/
theorem C2_nonhtml_skip_witness :
    (processURL pdfEnv exState exTask 5 .email [] false).result.statusCode = 200
      ∧ (processURL pdfEnv exState exTask 5 .email [] false).result.error
          = "skipped non-HTML content: application/pdf"
      ∧ (processURL pdfEnv exState exTask 5 .email [] false).state.collector.errors
          = exState.collector.errors + 1 :=
  C2_nonhtml_skip pdfEnv exState exTask 5 .email [] false
    { contentType := "application/pdf", statusCode := 200, body := "" }
    rfl rfl rfl (by decide) (by decide) (by decide)

lemma addNewURLsStep_tasks (now : Int) (d : Nat)
    (acc : List String × List URLTask × CrawlState) (url : String) :
    ∀ t ∈ (addNewURLsStep now d acc url).2.1, t ∈ acc.2.1 ∨ t.depth = d := by
  unfold addNewURLsStep
  split
  · intro t ht; exact .inl ht
  · split
    · intro t ht; exact .inl ht
    · intro t ht
      simp only [List.mem_append, List.mem_singleton] at ht
      rcases ht with ht | ht
      · exact .inl ht
      · subst ht; exact .inr rfl

lemma addNewURLs_fold_tasks (now : Int) (d : Nat) (urls : List String) :
    ∀ acc, ∀ t ∈ (urls.foldl (addNewURLsStep now d) acc).2.1,
      t ∈ acc.2.1 ∨ t.depth = d := by
  induction urls with
  | nil => intro acc t ht; exact .inl ht
  | cons u us ih =>
      intro acc t ht
      rcases ih (addNewURLsStep now d acc u) t ht with h | h
      · exact addNewURLsStep_tasks now d acc u t h
      · exact .inr h

lemma addNewURLs_tasks_depth (st : CrawlState) (now : Int) (urls : List String)
    (d : Nat) : ∀ t ∈ (addNewURLs st now urls d).2.1, t.depth = d := by
  intro t ht
  rcases addNewURLs_fold_tasks now d urls ([], [], st) t ht with h | h
  · simp at h
  · exact h

/-- C5: every child task created while processing a task has depth
exactly parent depth plus one; a task at or beyond max depth creates no
children (link expansion is guarded by depth < maxDepth); hence when
the parent respects the depth bound so does every child. -/
theorem C5_depth_bound (env : ProcEnv) (st : CrawlState) (task : URLTask)
    (maxDepth : Nat) (mode : CrawlMode) (kws : List String) (cdd : Bool) :
    (∀ t ∈ (processURL env st task maxDepth mode kws cdd).createdTasks,
        t.depth = task.depth + 1)
      ∧ (maxDepth ≤ task.depth →
          (processURL env st task maxDepth mode kws cdd).createdTasks = [])
      ∧ (task.depth ≤ maxDepth →
          ∀ t ∈ (processURL env st task maxDepth mode kws cdd).createdTasks,
            t.depth ≤ maxDepth) := by
  have hmain : ∀ t ∈ (processURL env st task maxDepth mode kws cdd).createdTasks,
      t.depth = task.depth + 1 ∧ task.depth < maxDepth := by
    intro t ht
    simp only [processURL] at ht
    split at ht
    · simp at ht
    · split at ht
      · simp at ht
      · split at ht
        · simp at ht
        · split at ht
          next hd =>
            exact ⟨addNewURLs_tasks_depth _ _ _ _ t ht, hd⟩
          · simp at ht
  refine ⟨fun t ht => (hmain t ht).1, ?_, ?_⟩
  · intro hle
    cases hcs : (processURL env st task maxDepth mode kws cdd).createdTasks with
    | nil => rfl
    | cons a as =>
        have := (hmain a (by rw [hcs]; exact List.mem_cons_self a as)).2
        omega
  · intro _ t ht
    have := hmain t ht
    omega

/-- C5 witness: processing a task at the maximum depth creates no
children, and at the concrete benign environment the bound holds. -/
theorem C5_depth_bound_witness :
    (5 ≤ ({ url := "http://example.com/", depth := 5, timestamp := 0, retries := 0 } : URLTask).depth →
      (processURL exEnv exState
        { url := "http://example.com/", depth := 5, timestamp := 0, retries := 0 }
        5 .email [] false).createdTasks = []) ∧
    (5 ≤ (5 : Nat) → True) :=
  ⟨(C5_depth_bound exEnv exState
      { url := "http://example.com/", depth := 5, timestamp := 0, retries := 0 }
      5 .email [] false).2.1, fun _ => trivial⟩

/-- C6: push on a queue at or above capacity returns QueueFull without
touching the heap (the Go code returns before any heap mutation, and
the pure model leaves the state untouched); a successful push means the
queue was below capacity and grows by one, so the size never exceeds
the capacity; and addNewURLs routes a task rejected with QueueFull to
persistent storage via StoreURL. -/
theorem C6_capacity_bound (q : PriorityURLQueue) (t : URLTask)
    (st : CrawlState) (now : Int) (u : String) (d : Nat) :
    (q.heap.length ≥ q.maxSize → q.push t = .error .queueFull)
      ∧ (∀ q', q.push t = .ok q' →
          q.heap.length < q.maxSize ∧ q'.heap.length = q.heap.length + 1)
      ∧ (q.heap.length ≤ q.maxSize → ∀ q', q.push t = .ok q' →
          q'.heap.length ≤ q.maxSize)
      ∧ (st.queue.heap.length ≥ st.queue.maxSize → IsValidURL u = true →
          st.bloom.contains u = false →
          (addNewURLs st now [u] d).2.2.backlog
            = st.backlog ++ [{ url := u, depth := d, timestamp := now, retries := 0 }]) := by
  have hpush : ∀ q', q.push t = .ok q' →
      q.heap.length < q.maxSize ∧ q'.heap.length = q.heap.length + 1 := by
    intro q' h
    unfold PriorityURLQueue.push at h
    split at h
    · exact absurd h (by simp)
    next hfull =>
      have hlt : q.heap.length < q.maxSize := by omega
      simp only [Except.ok.injEq] at h
      subst h
      exact ⟨hlt, heapPush_length _ _⟩
  refine ⟨?_, hpush, ?_, ?_⟩
  · intro h
    unfold PriorityURLQueue.push
    simp [h]
  · intro _ q' h
    have := hpush q' h
    omega
  · intro hfull hvalid hbloom
    unfold addNewURLs
    simp only [List.foldl_cons, List.foldl_nil]
    unfold addNewURLsStep
    rw [if_neg (by simp [hvalid])]
    simp only [hbloom]
    rw [if_neg (by simp)]
    unfold PriorityURLQueue.push
    rw [if_pos (by simpa using hfull)]

/-- C6 witness: a full queue of capacity zero rejects a push and the
rejected task lands in the backlog. -/
theorem C6_capacity_bound_witness :
    (({ heap := [], maxSize := 0 } : PriorityURLQueue).heap.length ≥ 0 →
      ({ heap := [], maxSize := 0 } : PriorityURLQueue).push exTask = .error .queueFull)
    ∧ (({ exState with queue := { heap := [], maxSize := 0 } } : CrawlState).queue.heap.length ≥ 0 →
        IsValidURL "http://w.example/" = true →
        ({ exState with queue := { heap := [], maxSize := 0 } } : CrawlState).bloom.contains "http://w.example/" = false →
        (addNewURLs { exState with queue := { heap := [], maxSize := 0 } } 0 ["http://w.example/"] 1).2.2.backlog
          = ({ exState with queue := { heap := [], maxSize := 0 } } : CrawlState).backlog
              ++ [{ url := "http://w.example/", depth := 1, timestamp := 0, retries := 0 }]) :=
  ⟨(C6_capacity_bound { heap := [], maxSize := 0 } exTask exState 0 "x" 0).1,
   (C6_capacity_bound { heap := [], maxSize := 0 } exTask
      { exState with queue := { heap := [], maxSize := 0 } } 0 "http://w.example/" 1).2.2.2⟩

/-- C9: pop on an empty frontier returns QueueEmpty without blocking;
pop on a non-empty frontier in heap order returns the root task, which
is in the heap and whose priority (depth times 1000 plus creation unix
seconds) is minimal among all queued items, and leaves the remaining
slice in heap order. -/
theorem C9_pop_min (q : PriorityURLQueue) (hq : HeapInv q.heap) :
    (q.heap = [] → q.pop = .error .queueEmpty)
      ∧ (q.heap ≠ [] →
          q.pop = .ok ((q.heap.getD 0 default).task, { q with heap := heapPopped q.heap })
            ∧ q.heap.getD 0 default ∈ q.heap
            ∧ (∀ it ∈ q.heap, (q.heap.getD 0 default).priority ≤ it.priority)
            ∧ HeapInv (heapPopped q.heap)) := by
  constructor
  · intro h
    unfold PriorityURLQueue.pop
    simp [h]
  · intro h
    have hlen : ¬ q.heap.length = 0 := by
      simpa using (List.length_pos.mpr h).ne'
    refine ⟨?_, getD_zero_mem _ _ h, mem_min_of_root _ hq, heapPopped_inv _ hq⟩
    unfold PriorityURLQueue.pop
    rw [if_neg hlen]

/-- C9 witness: on a concrete three-element heap, pop returns the root,
which has the minimal priority, and the heap order survives. -/
theorem C9_pop_min_witness :
    exQueue.heap ≠ [] ∧
    (exQueue.heap ≠ [] →
        exQueue.pop = .ok ((exQueue.heap.getD 0 default).task,
            { exQueue with heap := heapPopped exQueue.heap })
          ∧ exQueue.heap.getD 0 default ∈ exQueue.heap
          ∧ (∀ it ∈ exQueue.heap, (exQueue.heap.getD 0 default).priority ≤ it.priority)
          ∧ HeapInv (heapPopped exQueue.heap)) :=
  ⟨by decide, (C9_pop_min exQueue (by decide)).2⟩

lemma addURLsValidateStep_fst (acc : List String × List String) (raw : String) :
    ∀ c ∈ (addURLsValidateStep acc raw).1,
      c ∈ acc.1 ∨ (dashURLValid c = true ∧ c ≠ "") := by
  unfold addURLsValidateStep
  split
  · intro c hc; exact .inl hc
  next hblank =>
    split
    next hvalid =>
      intro c hc
      simp only [List.mem_append, List.mem_singleton] at hc
      rcases hc with hc | hc
      · exact .inl hc
      · subst hc; exact .inr ⟨hvalid, hblank⟩
    · intro c hc; exact .inl hc

lemma addURLsValidate_fold_fst (urls : List String) :
    ∀ acc, ∀ c ∈ (urls.foldl addURLsValidateStep acc).1,
      c ∈ acc.1 ∨ (dashURLValid c = true ∧ c ≠ "") := by
  induction urls with
  | nil => intro acc c hc; exact .inl hc
  | cons u us ih =>
      intro acc c hc
      rcases ih (addURLsValidateStep acc u) c hc with h | h
      · exact addURLsValidateStep_fst acc u c h
      · exact .inr h

lemma addURLsValidateStep_snd_mono (acc : List String × List String) (raw : String) :
    ∀ x ∈ acc.2, x ∈ (addURLsValidateStep acc raw).2 := by
  unfold addURLsValidateStep
  split
  · exact fun x h => h
  · split
    · exact fun x h => h
    · intro x h
      simp only [List.mem_append, List.mem_singleton]
      exact .inl h

lemma addURLsValidate_fold_snd_mono (urls : List String) :
    ∀ acc, ∀ x ∈ acc.2, x ∈ (urls.foldl addURLsValidateStep acc).2 := by
  induction urls with
  | nil => intro acc x h; exact h
  | cons u us ih =>
      intro acc x h
      exact ih (addURLsValidateStep acc u) x (addURLsValidateStep_snd_mono acc u x h)

lemma addURLsValidate_fold_invalid (urls : List String) :
    ∀ acc, ∀ raw ∈ urls, goTrimSpace raw ≠ "" → dashURLValid (goTrimSpace raw) = false →
      goTrimSpace raw ∈ (urls.foldl addURLsValidateStep acc).2 := by
  induction urls with
  | nil => intro acc raw h; simp at h
  | cons u us ih =>
      intro acc raw hmem htrim hinv
      simp only [List.foldl_cons]
      rcases List.mem_cons.mp hmem with h | h
      · subst h
        apply addURLsValidate_fold_snd_mono us (addURLsValidateStep acc raw)
        unfold addURLsValidateStep
        rw [if_neg htrim, if_neg (by simp [hinv])]
        simp only [List.mem_append, List.mem_singleton]
        exact .inr trivial
      · exact ih _ raw h htrim hinv

lemma addURLsPushStep_tasks (now : Int)
    (acc : Nat × Nat × List URLTask × PriorityURLQueue) (v : String) :
    ∀ t ∈ (addURLsPushStep now acc v).2.2.1,
      t ∈ acc.2.2.1 ∨ (t.depth = 0 ∧ t.url = v) := by
  unfold addURLsPushStep
  split <;>
    · intro t ht
      simp only [List.mem_append, List.mem_singleton] at ht
      rcases ht with ht | ht
      · exact .inl ht
      · subst ht; exact .inr ⟨rfl, rfl⟩

lemma addURLsPush_fold_tasks (now : Int) (valid : List String) :
    ∀ acc, ∀ t ∈ (valid.foldl (addURLsPushStep now) acc).2.2.1,
      t ∈ acc.2.2.1 ∨ (t.depth = 0 ∧ t.url ∈ valid) := by
  induction valid with
  | nil => intro acc t ht; exact .inl ht
  | cons v vs ih =>
      intro acc t ht
      rcases ih (addURLsPushStep now acc v) t ht with h | h
      · rcases addURLsPushStep_tasks now acc v t h with h' | h'
        · exact .inl h'
        · exact .inr ⟨h'.1, by rw [h'.2]; exact List.mem_cons_self v vs⟩
      · exact .inr ⟨h.1, List.mem_cons_of_mem v h.2⟩

/-- C3, counterexample: the injection endpoint accepts an ftp URL and
creates a depth-0 task for it, although its scheme is neither http nor
https (IsValidURL is false), contradicting the claimed validation. -/
theorem C3_add_urls_counterexample :
    ((handleAddURLs ["ftp://example.com/x"] 0 { heap := [], maxSize := 100000 }).createdTasks.map
        (fun t => t.url)) = ["ftp://example.com/x"]
      ∧ IsValidURL "ftp://example.com/x" = false := by
  decide

/-- C3, amended: every task created by the URL-injection endpoint has
depth 0 and a URL that url.Parse accepts with non-empty scheme and
non-empty host (not necessarily http or https); every non-blank
submitted URL failing that validation is reported in invalid_urls after
trimming, and no task is created for it. -/
theorem C3_add_urls_validation (urls : List String) (now : Int)
    (q : PriorityURLQueue) :
    (∀ t ∈ (handleAddURLs urls now q).createdTasks,
        t.depth = 0 ∧ dashURLValid t.url = true)
      ∧ (∀ raw ∈ urls, goTrimSpace raw ≠ "" → dashURLValid (goTrimSpace raw) = false →
          goTrimSpace raw ∈ (handleAddURLs urls now q).invalidURLs
            ∧ ∀ t ∈ (handleAddURLs urls now q).createdTasks, t.url ≠ goTrimSpace raw) := by
  have htasks : ∀ t ∈ (handleAddURLs urls now q).createdTasks,
      t.depth = 0 ∧ dashURLValid t.url = true := by
    intro t ht
    have hmem := addURLsPush_fold_tasks now (addURLsValidate urls).1 (0, 0, [], q) t ht
    rcases hmem with h | h
    · simp at h
    · refine ⟨h.1, ?_⟩
      rcases addURLsValidate_fold_fst urls ([], []) t.url h.2 with h' | h'
      · simp at h'
      · exact h'.1
  refine ⟨htasks, ?_⟩
  intro raw hmem htrim hinv
  refine ⟨addURLsValidate_fold_invalid urls ([], []) raw hmem htrim hinv, ?_⟩
  intro t ht heq
  have := (htasks t ht).2
  rw [heq, hinv] at this
  exact Bool.false_ne_true this

/-- C3 witness for the amended statement: a well-formed https URL is
accepted as a depth-0 task, and a schemeless string is reported
invalid with no task created for it. -/
theorem C3_add_urls_validation_witness :
    (∀ t ∈ (handleAddURLs ["https://ok.example/", "notaurl"] 7
        { heap := [], maxSize := 100000 }).createdTasks,
      t.depth = 0 ∧ dashURLValid t.url = true)
    ∧ ("notaurl" ∈ (handleAddURLs ["https://ok.example/", "notaurl"] 7
          { heap := [], maxSize := 100000 }).invalidURLs
        ∧ ∀ t ∈ (handleAddURLs ["https://ok.example/", "notaurl"] 7
            { heap := [], maxSize := 100000 }).createdTasks, t.url ≠ "notaurl") := by
  refine ⟨(C3_add_urls_validation ["https://ok.example/", "notaurl"] 7
    { heap := [], maxSize := 100000 }).1, ?_⟩
  have h := (C3_add_urls_validation ["https://ok.example/", "notaurl"] 7
    { heap := [], maxSize := 100000 }).2 "notaurl" (by decide) (by decide) (by decide)
  simpa using h

/-- C10: CanFetch returns false for every URL that url.Parse rejects,
without consulting any robots rules; by contrast, when the URL parses
and the cache lookup or fetch yields nothing (no entry, fetch failure,
non-200 — all cached as nil), CanFetch is permissive and returns
true. -/
theorem C10_canfetch_parse_failure (getRobots : String → Option RobotsData)
    (ua : String) (s : String) :
    (goURLParse s = none → canFetch getRobots ua s = false)
      ∧ (∀ u, goURLParse s = some u → getRobots u.host = none →
          canFetch getRobots ua s = true) := by
  constructor
  · intro h
    simp [canFetch, h]
  · intro u h hr
    simp [canFetch, h, hr]

/-- C10 witness: a URL with a control byte fails parsing and is denied
even though no robots data exists; a clean URL with no robots data is
allowed. -/
theorem C10_canfetch_parse_failure_witness :
    canFetch (fun _ => none) "GolamV2-Crawler/1.0" ctlURL = false
      ∧ canFetch (fun _ => none) "GolamV2-Crawler/1.0" "http://example.com/x" = true :=
  ⟨(C10_canfetch_parse_failure (fun _ => none) "GolamV2-Crawler/1.0" ctlURL).1 (by decide),
   (C10_canfetch_parse_failure (fun _ => none) "GolamV2-Crawler/1.0" "http://example.com/x").2
     { scheme := "http", host := "example.com", path := "/x" } (by decide) rfl⟩

lemma swapStr_length (l : List String) (i j : Nat) :
    (swapStr l i j).length = l.length := by
  simp [swapStr]

lemma swapStr_subset (l : List String) (i j : Nat) (hi : i < l.length)
    (hj : j < l.length) : ∀ a ∈ swapStr l i j, a ∈ l := by
  intro a ha
  unfold swapStr at ha
  rcases List.mem_or_eq_of_mem_set ha with h1 | h2
  · rcases List.mem_or_eq_of_mem_set h1 with h3 | h4
    · exact h3
    · subst h4
      rw [List.getD_eq_getElem _ _ hj]
      exact List.getElem_mem hj
  · subst h2
    rw [List.getD_eq_getElem _ _ hi]
    exact List.getElem_mem hi

lemma fyShuffleGo_length (rand : Nat → Nat) :
    ∀ (i : Nat) (l : List String), (fyShuffleGo rand l i).length = l.length := by
  intro i
  induction i with
  | zero => intro l; rfl
  | succ n ih =>
      intro l
      unfold fyShuffleGo
      rw [ih, swapStr_length]

lemma fyShuffleGo_subset (rand : Nat → Nat) :
    ∀ (i : Nat) (l : List String), i < l.length →
      ∀ a ∈ fyShuffleGo rand l i, a ∈ l := by
  intro i
  induction i with
  | zero => intro l _ a ha; exact ha
  | succ n ih =>
      intro l hlen a ha
      unfold fyShuffleGo at ha
      have hj : rand (n + 1) % (n + 2) < l.length := by
        have h1 : rand (n + 1) % (n + 2) < n + 2 := Nat.mod_lt _ (by omega)
        omega
      have hsub := swapStr_subset l (n + 1) (rand (n + 1) % (n + 2)) hlen hj
      have hlen' : n < (swapStr l (n + 1) (rand (n + 1) % (n + 2))).length := by
        rw [swapStr_length]; omega
      exact hsub a (ih _ hlen' a ha)

lemma fyShuffle_length (l : List String) (rand : Nat → Nat) :
    (fyShuffle l rand).length = l.length := by
  unfold fyShuffle
  exact fyShuffleGo_length rand _ l

lemma fyShuffle_subset (l : List String) (rand : Nat → Nat) :
    ∀ a ∈ fyShuffle l rand, a ∈ l := by
  intro a ha
  unfold fyShuffle at ha
  cases l with
  | nil => simpa [fyShuffleGo] using ha
  | cons x xs =>
      exact fyShuffleGo_subset rand _ _ (by simp) a ha

lemma sampleSize_le (n : Nat) : sampleSize n ≤ n := by
  unfold sampleSize
  split <;> omega

lemma sampleLinks_length (links : List String) (rand : Nat → Nat) :
    (sampleLinks links rand).length = sampleSize links.length := by
  unfold sampleLinks
  rw [List.length_take, fyShuffle_length]
  exact Nat.min_eq_left (sampleSize_le _)

lemma queueLinks_le_cap (src : String) (links : List String) :
    ∀ chan : List (String × String), chan.length ≤ linkQueueCap →
      (queueLinksForChecking chan links src).length ≤ linkQueueCap := by
  induction links with
  | nil => intro chan h; exact h
  | cons l ls ih =>
      intro chan h
      unfold queueLinksForChecking
      simp only [List.foldl_cons]
      by_cases hc : chan.length < linkQueueCap
      · rw [if_pos hc]
        refine ih _ ?_
        rw [List.length_append]
        simp only [List.length_cons, List.length_nil]
        omega
      · rw [if_neg hc]
        exact ih _ h

lemma queueLinks_no_drop (src : String) (links : List String) :
    ∀ chan : List (String × String),
      chan.length + links.length ≤ linkQueueCap →
      queueLinksForChecking chan links src
        = chan ++ links.map (fun l => (l, src)) := by
  induction links with
  | nil => intro chan _; simp [queueLinksForChecking]
  | cons l ls ih =>
      intro chan h
      unfold queueLinksForChecking
      simp only [List.foldl_cons, List.length_cons] at *
      rw [if_pos (by omega)]
      have := ih (chan ++ [(l, src)]) (by simp; omega)
      unfold queueLinksForChecking at this
      rw [this, List.map_cons, List.append_assoc]
      rfl

/-- C8: CheckDeadLinks performs no probe on the calling path: it always
returns two empty lists immediately; the number of sampled links is
len/5 (the Go float expression int(float64(len)*0.2)) raised to 1 when
links exist, so at least one link is sampled from a non-empty list;
every sampled link comes from the input list; the channel stays within
its capacity (enqueues that would overflow it are dropped), and when
there is room all sampled links are enqueued with the source URL. -/
theorem C8_check_dead_links_async (links : List String) (src : String)
    (rand : Nat → Nat) (chan : List (String × String)) :
    (CheckDeadLinks links src rand chan).1 = ([], [])
      ∧ (sampleLinks links rand).length = sampleSize links.length
      ∧ (links ≠ [] → 1 ≤ (sampleLinks links rand).length)
      ∧ (∀ x ∈ sampleLinks links rand, x ∈ links)
      ∧ (chan.length ≤ linkQueueCap →
          (CheckDeadLinks links src rand chan).2.length ≤ linkQueueCap)
      ∧ (chan.length + (sampleLinks links rand).length ≤ linkQueueCap →
          (CheckDeadLinks links src rand chan).2
            = chan ++ (sampleLinks links rand).map (fun l => (l, src))) := by
  refine ⟨rfl, sampleLinks_length links rand, ?_, ?_, ?_, ?_⟩
  · intro h
    rw [sampleLinks_length]
    have : 0 < links.length := List.length_pos.mpr h
    unfold sampleSize
    split <;> omega
  · intro x hx
    exact fyShuffle_subset links rand x (List.mem_of_mem_take hx)
  · intro h
    exact queueLinks_le_cap src _ chan h
  · intro h
    exact queueLinks_no_drop src _ chan h

/-- C8 witness: six links sample exactly one link (6/5 = 1), it comes
from the list, nothing is probed, and the pair lands on the channel. -/
theorem C8_check_dead_links_async_witness :
    (CheckDeadLinks ["http://1/", "http://2/", "http://3/", "http://4/", "http://5/", "http://6/"]
        "http://s/" (fun _ => 0) []).1 = ([], [])
      ∧ 1 ≤ (sampleLinks ["http://1/", "http://2/", "http://3/", "http://4/", "http://5/", "http://6/"]
          (fun _ => 0)).length
      ∧ (CheckDeadLinks ["http://1/", "http://2/", "http://3/", "http://4/", "http://5/", "http://6/"]
          "http://s/" (fun _ => 0) []).2
          = (sampleLinks ["http://1/", "http://2/", "http://3/", "http://4/", "http://5/", "http://6/"]
              (fun _ => 0)).map (fun l => (l, "http://s/")) := by
  have h := C8_check_dead_links_async
    ["http://1/", "http://2/", "http://3/", "http://4/", "http://5/", "http://6/"]
    "http://s/" (fun _ => 0) []
  refine ⟨h.1, h.2.2.1 (by decide), ?_⟩
  have h6 := h.2.2.2.2.2 (by rw [sampleLinks_length]; decide)
  simpa using h6

lemma keyHasUrlPref_urlKey (u : String) : keyHasUrlPref (urlKey u) = true := by
  unfold keyHasUrlPref urlKey
  rw [String.data_append]
  exact List.isPrefixOf_iff_prefix.mpr (List.prefix_append _ _)

lemma urlKey_inj {a b : String} (h : urlKey a = urlKey b) : a = b := by
  unfold urlKey at h
  have hd : ("url:" ++ a).data = ("url:" ++ b).data := congrArg String.data h
  rw [String.data_append, String.data_append] at hd
  exact String.ext (List.append_cancel_left hd)

lemma getURLsRead_eq (entries : List (String × URLTask)) (limit : Nat)
    (hwf : ∀ e ∈ entries, e.1 = urlKey e.2.url) :
    getURLsRead entries limit = (entries.take limit).map (fun e => e.2) := by
  unfold getURLsRead
  rw [List.filter_eq_self.mpr ?_]
  intro e he
  rw [hwf e he]
  exact keyHasUrlPref_urlKey _

lemma deleteURLsBatch_take (entries : List (String × URLTask)) (limit : Nat)
    (hs : entries.Pairwise (fun a b => a.1.data < b.1.data))
    (hwf : ∀ e ∈ entries, e.1 = urlKey e.2.url) :
    deleteURLsBatch entries ((entries.take limit).map (fun e => e.2))
      = entries.drop limit := by
  unfold deleteURLsBatch
  have hkeys : (((entries.take limit).map (fun e => e.2)).map (fun t => urlKey t.url))
      = (entries.take limit).map (fun e => e.1) := by
    rw [List.map_map]
    exact List.map_congr_left
      (fun e he => ((hwf e (List.mem_of_mem_take he)).symm : urlKey e.2.url = e.1))
  rw [hkeys]
  have hsplit := List.take_append_drop limit entries
  have hcross : ∀ a ∈ entries.take limit, ∀ b ∈ entries.drop limit,
      a.1.data < b.1.data := by
    have hps := hs
    rw [← hsplit] at hps
    exact (List.pairwise_append.mp hps).2.2
  set ks := (entries.take limit).map (fun e => e.1) with hks
  have h1 : (entries.take limit).filter (fun e => ! ks.contains e.1) = [] := by
    rw [List.filter_eq_nil_iff]
    intro e he
    simp only [Bool.not_eq_true', Bool.not_eq_false]
    rw [List.contains, List.elem_iff, hks]
    exact List.mem_map.mpr ⟨e, he, rfl⟩
  have h2 : (entries.drop limit).filter (fun e => ! ks.contains e.1)
      = entries.drop limit := by
    rw [List.filter_eq_self]
    intro e he
    simp only [Bool.not_eq_true']
    rw [← Bool.not_eq_true, List.contains, List.elem_iff, hks]
    intro hmem
    rcases List.mem_map.mp hmem with ⟨a, ha, hae⟩
    have hlt := hcross a ha e he
    rw [hae] at hlt
    exact lt_irrefl _ hlt
  conv_lhs => rw [← hsplit]
  rw [List.filter_append, h1, h2, List.nil_append]

lemma getURLs_spec (entries : List (String × URLTask)) (limit : Nat)
    (hwf : BacklogWF entries) :
    (getURLs entries limit).1 = (entries.take limit).map (fun e => e.2)
      ∧ (getURLs entries limit).2 = entries.drop limit := by
  obtain ⟨hs, hk⟩ := hwf
  simp only [getURLs]
  rw [getURLsRead_eq entries limit hk]
  split
  next hpos =>
    exact ⟨rfl, deleteURLsBatch_take entries limit hs hk⟩
  next hpos =>
    have hnil : (entries.take limit).map (fun e => e.2) = [] := by
      cases h : (entries.take limit).map (fun e => e.2) with
      | nil => rfl
      | cons x xs => rw [h] at hpos; simp at hpos
    have htake : entries.take limit = [] := List.map_eq_nil_iff.mp hnil
    have hdrop : entries.drop limit = entries := by
      have := List.take_append_drop limit entries
      rw [htake, List.nil_append] at this
      exact this
    exact ⟨rfl, hdrop.symm⟩

lemma backlogWF_drop (entries : List (String × URLTask)) (limit : Nat)
    (hwf : BacklogWF entries) : BacklogWF (entries.drop limit) :=
  ⟨hwf.1.sublist (List.drop_sublist limit entries),
   fun e he => hwf.2 e (List.mem_of_mem_drop he)⟩

/-- C7: under the key layout StoreURL maintains (strictly increasing
keys of the form url-prefix plus the task URL), GetURLs returns the
first limit backlog entries in key order and deletes exactly those
entries in one batch, leaving the remaining entries stored; a
subsequent GetURLs therefore returns only tasks whose URLs differ from
every task of the first read. -/
theorem C7_get_urls_destructive_read (entries : List (String × URLTask))
    (limit : Nat) (hwf : BacklogWF entries) :
    (getURLs entries limit).1 = (entries.take limit).map (fun e => e.2)
      ∧ (getURLs entries limit).2 = entries.drop limit
      ∧ (∀ limit2, ∀ t2 ∈ (getURLs ((getURLs entries limit).2) limit2).1,
          ∀ t1 ∈ (getURLs entries limit).1, t2.url ≠ t1.url) := by
  obtain ⟨h1, h2⟩ := getURLs_spec entries limit hwf
  refine ⟨h1, h2, ?_⟩
  intro limit2 t2 ht2 t1 ht1 heq
  rw [h2] at ht2
  rw [(getURLs_spec (entries.drop limit) limit2 (backlogWF_drop entries limit hwf)).1]
    at ht2
  rw [h1] at ht1
  rcases List.mem_map.mp ht2 with ⟨e2, he2, he2t⟩
  rcases List.mem_map.mp ht1 with ⟨e1, he1, he1t⟩
  have he2d : e2 ∈ entries.drop limit := List.mem_of_mem_take he2
  have hcross : ∀ a ∈ entries.take limit, ∀ b ∈ entries.drop limit,
      a.1.data < b.1.data := by
    have hps := hwf.1
    rw [← List.take_append_drop limit entries] at hps
    exact (List.pairwise_append.mp hps).2.2
  have hlt := hcross e1 he1 e2 he2d
  have hk1 : e1.1 = urlKey e1.2.url := hwf.2 e1 (List.mem_of_mem_take he1)
  have hk2 : e2.1 = urlKey e2.2.url := hwf.2 e2 (List.mem_of_mem_drop he2d)
  rw [hk1, hk2] at hlt
  rw [he1t, he2t, heq] at hlt
  exact lt_irrefl _ hlt

/-- C7 witness: on a concrete three-entry backlog, fetching two entries
returns the first two tasks in key order, leaves exactly the third, and
a second fetch returns tasks with different URLs. -/
theorem C7_get_urls_destructive_read_witness :
    BacklogWF exBacklog
      ∧ ((getURLs exBacklog 2).1 = (exBacklog.take 2).map (fun e => e.2)
          ∧ (getURLs exBacklog 2).2 = exBacklog.drop 2
          ∧ (∀ limit2, ∀ t2 ∈ (getURLs ((getURLs exBacklog 2).2) limit2).1,
              ∀ t1 ∈ (getURLs exBacklog 2).1, t2.url ≠ t1.url)) :=
  ⟨by decide, C7_get_urls_destructive_read exBacklog 2 (by decide)⟩

end GolamV2
